import Mathlib

/-!
Verification of the issuer-side cryptographic core of the ZK-CREDENTIAL
repository (`issuer-rust`).  The Rust code works in the scalar field of the
BN254 curve (`ark_bn254::Fr`), which we embed as `ZMod qBN` for the known
modulus `qBN`.  Randomness consumed by the Rust functions (byte strings drawn
from a secure RNG) is made an explicit argument; external hash primitives
(SHA-256 from the `sha2` crate) are made explicit function arguments; Rust
panics on malformed input are modelled by `Option`.
-/

/-- Order of the BN254 scalar field, the modulus of `ark_bn254::Fr`. -/
def qBN : Nat := 21888242871839275222246405745257275088548364400416034343698204186575808495617

/-- The field `ark_bn254::Fr`, embedded as integers modulo `qBN`. -/
abbrev Fr : Type := ZMod qBN

instance : NeZero qBN := ⟨by norm_num [qBN]⟩

/-- Value of a little-endian byte string as a natural number: the first list
element is the least significant byte. -/
def leBytesToNat (bytes : List Nat) : Nat :=
  bytes.foldr (fun b acc => b + 256 * acc) 0

/-- Embedding of `Fr::from_le_bytes_mod_order`: interpret a byte string as a
little-endian integer and reduce it modulo `qBN`. -/
def from_le_bytes_mod_order (bytes : List Nat) : Fr :=
  (leBytesToNat bytes : Fr)

/-- Embedding of `u64_to_fr` from `crypto/mod.rs`: `Fr::from(n)`. -/
def u64_to_fr (n : Nat) : Fr := (n : Fr)

/-- Embedding of `bytes_to_fr` from `crypto/mod.rs`: hash the input with
SHA-256 and interpret the digest as a little-endian integer modulo `qBN`.
The SHA-256 compression itself lives in the external `sha2` crate, so it is
passed in as an explicit function `sha` from byte strings to byte strings. -/
def bytes_to_fr (sha : List Nat → List Nat) (data : List Nat) : Fr :=
  from_le_bytes_mod_order (sha data)

/-- Embedding of `generate_shares` from `crypto/mod.rs`.  The Rust function
draws 32 random bytes `r_bytes` from `thread_rng`; that randomness is the
explicit second argument here.  It returns `(x1, x2)` with
`x1 = Fr::from_le_bytes_mod_order(r_bytes)` and `x2 = x - x1`. -/
def generate_shares (x : Fr) (r_bytes : List Nat) : Fr × Fr :=
  let x1 := from_le_bytes_mod_order r_bytes
  let x2 := x - x1
  (x1, x2)

/-- Embedding of `random_fr` from `crypto/mod.rs`, with the 32 random bytes
drawn from the RNG as explicit argument. -/
def random_fr (r_bytes : List Nat) : Fr := from_le_bytes_mod_order r_bytes

/-- Embedding of `mimc_round` from `crypto/mod.rs`:
`let mut y = x + key; y = y.pow([7]); y + x`. -/
def mimc_round (x key : Fr) : Fr :=
  let y := x + key
  let y7 := y ^ 7
  y7 + x

/-- Embedding of `mimc2` from `crypto/mod.rs`: two absorbed inputs with
`key = 0`. -/
def mimc2 (a b : Fr) : Fr :=
  let key : Fr := (0 : Nat)
  let h := mimc_round a key
  mimc_round h b

/-- Embedding of `mimc3` from `crypto/mod.rs`: three absorbed inputs with
`key = 0`. -/
def mimc3 (a b c : Fr) : Fr :=
  let key : Fr := (0 : Nat)
  let h := mimc_round a key
  let h2 := mimc_round h b
  mimc_round h2 c

/-- Embedding of `compute_base_commitment` from `crypto/mod.rs`. -/
def compute_base_commitment (x r : Fr) : Fr := mimc2 x r

/-- Embedding of `compute_session_commitment` from `crypto/mod.rs`. -/
def compute_session_commitment (c nonce domain : Fr) : Fr := mimc3 c nonce domain

/-- Reference single MiMC round exactly as the specification writes it:
`R(x, key) = (x + key)^7 + x`. -/
def mimcRoundSpec (x key : Fr) : Fr := (x + key) ^ 7 + x

/-- Reference two-input hash from the specification: `H2(a,b) = R(R(a,0), b)`. -/
def mimcH2Spec (a b : Fr) : Fr := mimcRoundSpec (mimcRoundSpec a 0) b

/-- Reference three-input hash from the specification:
`H3(a,b,c) = R(R(R(a,0), b), c)`. -/
def mimcH3Spec (a b c : Fr) : Fr := mimcRoundSpec (mimcRoundSpec (mimcRoundSpec a 0) b) c

/-- Fuel-bounded little-endian base-10 digit extraction; agrees with
`Nat.digits 10` whenever `n < 10 ^ fuel` (proved below) and, unlike
`Nat.digits`, reduces by kernel computation. -/
def decDigitsAux : Nat → Nat → List Nat
  | 0, _ => []
  | fuel + 1, n => if n = 0 then [] else n % 10 :: decDigitsAux fuel (n / 10)

/-- ASCII character of a single decimal digit. -/
def digitChar10 (d : Nat) : Char := Char.ofNat (48 + d)

/-- Decimal rendering of a natural number, most significant digit first;
this models `num_bigint::BigUint::to_string`. -/
def natToDecimal (n : Nat) : List Char :=
  if n = 0 then ['0'] else (decDigitsAux 100 n).reverse.map digitChar10

/-- Embedding of `fr_to_decimal` from `crypto/mod.rs`:
`f.into_bigint().to_string()`, the decimal string of the canonical
representative in `[0, qBN)`. -/
def fr_to_decimal (f : Fr) : List Char := natToDecimal f.val

/-- Value accumulated by reading a decimal string left to right. -/
def parseNatAux (s : List Char) : Nat :=
  s.foldl (fun a ch => 10 * a + (ch.toNat - 48)) 0

/-- Leading-sign handling of `num_bigint::BigUint::from_str_radix`: a single
leading `+` is stripped, unless the character after it is another `+`, in
which case the string is left untouched (and will fail on the `+`). -/
def stripPlus (s : List Char) : List Char :=
  match s with
  | [] => []
  | ch :: tail =>
    if ch = '+' then (if tail.head? = some '+' then ch :: tail else tail) else ch :: tail

/-- Embedding of `decimal_to_fr` from `crypto/mod.rs`.  The Rust function
parses with `num_bigint::BigUint::from_str`, which delegates to
`from_str_radix(s, 10)`: a single leading `+` is stripped (see `stripPlus`);
the remainder must be nonempty and must not lead with `_`; every remaining
character must be an ASCII decimal digit or a `_` separator, and the `_`
characters are skipped when the base-10 value is accumulated.  Any violation
makes the parse fail and the Rust caller panic, modelled as `none`.  On
success the integer is reduced modulo `qBN` by `Fr::from_le_bytes_mod_order`. -/
def decimal_to_fr (s : List Char) : Option Fr :=
  if stripPlus s ≠ [] ∧ (stripPlus s).head? ≠ some '_' ∧
      ∀ ch ∈ stripPlus s, ch.isDigit ∨ ch = '_' then
    some ((parseNatAux ((stripPlus s).filter fun ch => ch != '_') : Nat) : Fr)
  else none

/-- Embedding of `credential_message` from `crypto/mod.rs`.  The Rust code
feeds `cred_id.as_bytes()` and then, in list order, the ASCII decimal
encoding of every commitment into an incremental SHA-256 hasher and
finalises; incremental hashing of successive chunks is, by the contract of
the `sha2` crate, the digest of their concatenation, so the hasher state is
the byte string accumulated so far and `finalize` applies `sha`. -/
def credential_message (sha : List Nat → List Nat) (cred_id : List Nat)
    (c_parts : List Fr) : List Nat :=
  sha (c_parts.foldl (fun acc c => acc ++ (fr_to_decimal c).map Char.toNat) cred_id)

/-- Embedding of `format::AttributeData`: the four decimal strings stored per
attribute. -/
structure AttributeData where
  x1 : List Char
  x2 : List Char
  r : List Char
  c : List Char
  deriving DecidableEq

/-- Embedding of `format::Credential`. -/
structure Credential where
  credential_id : List Char
  issuer_pk : List Char
  sig : List Char
  attributes : List (List Char × AttributeData)
  deriving DecidableEq

/-- Embedding of `format::SessionPublic`: the decimal session commitment. -/
structure SessionPublic where
  sc : List Char
  deriving DecidableEq

/-- Embedding of `format::Session`. -/
structure Session where
  verifier_id : List Char
  nonce : List Char
  thresholds : List (List Char × Nat)
  public : List (List Char × SessionPublic)
  deriving DecidableEq

/-- Key `"age_min"` inserted into the thresholds map by `cmd_session`. -/
def ageMinKey : List Char := "age_min".toList

/-- Key `"income_min"` inserted into the thresholds map by `cmd_session`. -/
def incomeMinKey : List Char := "income_min".toList

/-- Embedding of the per-attribute loop of `cmd_session` in `main.rs`: for
each stored attribute, parse its base commitment from decimal (a parse
failure aborts the whole command, modelled by `none`) and bind it to the
session commitment computed with the one nonce and domain tag of the call. -/
def buildPublic (nonce domain : Fr) :
    List (List Char × AttributeData) → Option (List (List Char × SessionPublic))
  | [] => some []
  | p :: rest =>
    match decimal_to_fr p.2.c with
    | none => none
    | some cf =>
      (buildPublic nonce domain rest).map fun tail =>
        (p.1, SessionPublic.mk
          (fr_to_decimal (compute_session_commitment cf nonce domain))) :: tail

/-- Embedding of `cmd_session` from `main.rs` (its cryptographic core; file
I/O and JSON mechanics are outside the repository core).  The fresh nonce
drawn from the RNG is the explicit argument `nonce_bytes`. -/
def cmd_session (sha : List Nat → List Nat) (cred : Credential)
    (verifier_id : List Char) (nonce_bytes : List Nat)
    (min_age min_income : Nat) : Option Session :=
  let nonce := random_fr nonce_bytes
  let domain := bytes_to_fr sha (verifier_id.map Char.toNat)
  (buildPublic nonce domain cred.attributes).map fun pub =>
    { verifier_id := verifier_id
      nonce := fr_to_decimal nonce
      thresholds := [(ageMinKey, min_age), (incomeMinKey, min_income)]
      public := pub }

/-- Example digest function used to instantiate the `sha` parameter in
concrete witnesses: the identity on byte strings. -/
def exSha : List Nat → List Nat := fun l => l

/-- Example credential with one attribute whose stored base commitment is the
decimal string `"5"`. -/
def exCred : Credential :=
  { credential_id := "cred-1".toList
    issuer_pk := []
    sig := []
    attributes := [("age".toList,
      { x1 := "1".toList, x2 := "2".toList, r := "3".toList, c := "5".toList })] }

/-- Session produced by `cmd_session` on `exCred` with verifier `"B"`, nonce
bytes `[1]` and thresholds `18` and `500000`: the nonce is `1`, the domain
tag is `66`, and the session commitment is `mimc3 5 1 66`. -/
def exSession : Session :=
  { verifier_id := "B".toList
    nonce := "1".toList
    thresholds := [(ageMinKey, 18), (incomeMinKey, 500000)]
    public := [("age".toList,
      { sc := "6377552616885489671342102513856876071827946200819578726642779783449493004631".toList })] }

/-- Fuel-bounded modular exponentiation by repeated squaring; agrees with
`a ^ k % n` whenever `k < 2 ^ fuel` (proved below) and reduces by kernel
computation even for 254-bit arguments. -/
def powModAux : Nat → Nat → Nat → Nat → Nat
  | 0, _, _, n => 1 % n
  | fuel + 1, a, k, n =>
    if k = 0 then 1 % n
    else
      let h := powModAux fuel a (k / 2) n
      let h2 := h * h % n
      if k % 2 = 0 then h2 else h2 * a % n

/-- Modular exponentiation with enough fuel for any exponent below `2 ^ 300`. -/
def powMod (a k n : Nat) : Nat := powModAux 300 a k n

theorem decDigitsAux_eq_digits :
    ∀ (fuel n : Nat), n < 10 ^ fuel → decDigitsAux fuel n = Nat.digits 10 n := by
  intro fuel
  induction fuel with
  | zero =>
    intro n hn
    interval_cases n
    simp [decDigitsAux]
  | succ fuel ih =>
    intro n hn
    by_cases h0 : n = 0
    · subst h0; simp [decDigitsAux]
    · rw [decDigitsAux, if_neg h0,
        Nat.digits_def' (b := 10) (by norm_num) (Nat.pos_of_ne_zero h0),
        ih (n / 10) ?_]
      rw [Nat.div_lt_iff_lt_mul (by norm_num)]
      calc n < 10 ^ (fuel + 1) := hn
        _ = 10 ^ fuel * 10 := pow_succ 10 fuel

theorem digitChar10_toNat {d : Nat} (hd : d < 10) : (digitChar10 d).toNat = 48 + d := by
  interval_cases d <;> rfl

theorem digitChar10_isDigit {d : Nat} (hd : d < 10) : (digitChar10 d).isDigit = true := by
  interval_cases d <;> rfl

theorem parseNatAux_eq_ofDigits (s : List Char) :
    parseNatAux s = Nat.ofDigits 10 ((s.map fun ch => ch.toNat - 48).reverse) := by
  induction s using List.reverseRecOn with
  | nil => rfl
  | append_singleton s' ch ih =>
    have hfold : parseNatAux (s' ++ [ch]) = 10 * parseNatAux s' + (ch.toNat - 48) := by
      simp [parseNatAux, List.foldl_append]
    rw [hfold, ih]
    simp [Nat.ofDigits_cons]
    ring

theorem natToDecimal_parses (n : Nat) (hn : n < 10 ^ 100) :
    natToDecimal n ≠ [] ∧ (∀ ch ∈ natToDecimal n, ch.isDigit) ∧
      parseNatAux (natToDecimal n) = n := by
  by_cases h0 : n = 0
  · subst h0
    refine ⟨by simp [natToDecimal], ?_, by simp [natToDecimal, parseNatAux]⟩
    intro ch hch
    simp [natToDecimal] at hch
    subst hch; rfl
  · have hdig : decDigitsAux 100 n = Nat.digits 10 n := decDigitsAux_eq_digits 100 n hn
    have hne : Nat.digits 10 n ≠ [] := Nat.digits_ne_nil_iff_ne_zero.mpr h0
    have hlt10 : ∀ d ∈ Nat.digits 10 n, d < 10 := fun d hd =>
      Nat.digits_lt_base (by norm_num) hd
    rw [natToDecimal, if_neg h0, hdig]
    refine ⟨by simp [hne], ?_, ?_⟩
    · intro ch hch
      obtain ⟨d, hd, rfl⟩ := List.mem_map.mp hch
      exact digitChar10_isDigit (hlt10 d (List.mem_reverse.mp hd))
    · rw [parseNatAux_eq_ofDigits, List.map_map]
      have hid : ((Nat.digits 10 n).reverse.map
          ((fun ch => ch.toNat - 48) ∘ digitChar10)) = (Nat.digits 10 n).reverse := by
        have := List.map_congr_left (l := (Nat.digits 10 n).reverse)
          (f := (fun ch => ch.toNat - 48) ∘ digitChar10) (g := id) ?_
        · rw [this, List.map_id]
        · intro d hd
          have hd10 : d < 10 := hlt10 d (List.mem_reverse.mp hd)
          simp [Function.comp, digitChar10_toNat hd10]
      rw [hid, List.reverse_reverse, Nat.ofDigits_digits]

/-- C1: for every field element `x` and every 32-byte random draw (hence for
every possible value of the sampled share `x1`), `generate_shares` returns a
pair `(x1, x2)` with `x1 + x2 = x` in the field. -/
theorem generate_shares_reconstruction (x : Fr) (r_bytes : List Nat) :
    (generate_shares x r_bytes).1 + (generate_shares x r_bytes).2 = x := by
  simp [generate_shares]

/-- C2: the implemented MiMC hash matches the specified reference definition:
the single round is `R(x,key) = (x+key)^7 + x`, the two-input hash is
`H2(a,b) = R(R(a,0),b)` and the three-input hash is
`H3(a,b,c) = R(R(R(a,0),b),c)`, for all field-element inputs. -/
theorem mimc_matches_reference (x key a b c : Fr) :
    mimc_round x key = mimcRoundSpec x key ∧
    mimc2 a b = mimcH2Spec a b ∧
    mimc3 a b c = mimcH3Spec a b c := by
  refine ⟨rfl, ?_, ?_⟩ <;>
    simp [mimc2, mimc3, mimcH2Spec, mimcH3Spec, mimc_round, mimcRoundSpec]

theorem stripPlus_of_digits {s : List Char} (h : ∀ ch ∈ s, ch.isDigit) :
    stripPlus s = s := by
  cases s with
  | nil => rfl
  | cons ch t =>
    have hch : ch.isDigit := h ch (List.mem_cons_self ch t)
    have hne : ¬(ch = '+') := by
      intro he
      subst he
      exact absurd hch (by decide)
    simp only [stripPlus, if_neg hne]

theorem filter_underscore_of_digits {s : List Char} (h : ∀ ch ∈ s, ch.isDigit) :
    (s.filter fun ch => ch != '_') = s := by
  apply List.filter_eq_self.mpr
  intro a ha
  rw [bne_iff_ne]
  intro he
  subst he
  exact absurd (h _ ha) (by decide)

/-- C4: decimal round-trip: for every field element `e`, including `0` and
values near `qBN - 1`, parsing the decimal rendering of `e` gives back `e`.
The rendering is a nonempty all-digit string, on which the parser strips no
sign, skips no separator and accumulates exactly the rendered digits. -/
theorem decimal_round_trip (e : Fr) : decimal_to_fr (fr_to_decimal e) = some e := by
  have hlt : e.val < qBN := ZMod.val_lt e
  have hbound : e.val < 10 ^ 100 := lt_trans hlt (by norm_num [qBN])
  obtain ⟨hne, hdig, hval⟩ := natToDecimal_parses e.val hbound
  have hstrip : stripPlus (natToDecimal e.val) = natToDecimal e.val :=
    stripPlus_of_digits hdig
  have hcond : stripPlus (natToDecimal e.val) ≠ [] ∧
      (stripPlus (natToDecimal e.val)).head? ≠ some '_' ∧
      ∀ ch ∈ stripPlus (natToDecimal e.val), ch.isDigit ∨ ch = '_' := by
    rw [hstrip]
    refine ⟨hne, ?_, fun ch hm => Or.inl (hdig ch hm)⟩
    cases hcase : natToDecimal e.val with
    | nil => exact absurd hcase hne
    | cons c0 t =>
      have hc0 : c0.isDigit := hdig c0 (hcase ▸ List.mem_cons_self c0 t)
      simp only [List.head?_cons, ne_eq, Option.some.injEq]
      intro hcontra
      subst hcontra
      exact absurd hc0 (by decide)
  rw [fr_to_decimal, decimal_to_fr, if_pos hcond, hstrip,
    filter_underscore_of_digits hdig, hval]
  exact congrArg some (ZMod.natCast_rightInverse e)

/-- C5, counterexample: the claim says the parse fails exactly when the input
is not a valid non-negative base-10 integer, but on the input `"1_2"`, which
is not an all-digit numeral, `decimal_to_fr` succeeds (the underlying
`num_bigint` parser skips `_` separators and returns `12`), so the claimed
equivalence is false at this input. -/
theorem decimal_to_fr_boundary_counterexample :
    ¬(decimal_to_fr ("1_2".toList) = none ↔
        ¬("1_2".toList ≠ [] ∧ ∀ ch ∈ "1_2".toList, ch.isDigit)) := by
  decide

/-- C5, amended: `decimal_to_fr` fails exactly when, after stripping a single
leading `+` (left in place when followed by another `+`), the remainder is
empty, leads with `_`, or contains a character that is neither an ASCII
digit nor `_`; on every accepted string, including ones encoding values at
least `qBN`, it succeeds and returns the value of the digits (with `_`
separators skipped) reduced modulo `qBN`. -/
theorem decimal_to_fr_spec_amended (s : List Char) :
    (decimal_to_fr s = none ↔
      ¬(stripPlus s ≠ [] ∧ (stripPlus s).head? ≠ some '_' ∧
        ∀ ch ∈ stripPlus s, ch.isDigit ∨ ch = '_')) ∧
    ((stripPlus s ≠ [] ∧ (stripPlus s).head? ≠ some '_' ∧
        ∀ ch ∈ stripPlus s, ch.isDigit ∨ ch = '_') →
      ∃ e : Fr, decimal_to_fr s = some e ∧
        e.val = Nat.ofDigits 10
          ((((stripPlus s).filter fun ch => ch != '_').map
            fun ch => ch.toNat - 48).reverse) % qBN) := by
  constructor
  · constructor
    · intro h hcond
      rw [decimal_to_fr, if_pos hcond] at h
      exact Option.some_ne_none _ h
    · intro h
      rw [decimal_to_fr, if_neg h]
  · intro hcond
    refine ⟨((parseNatAux ((stripPlus s).filter fun ch => ch != '_') : Nat) : Fr), ?_, ?_⟩
    · rw [decimal_to_fr, if_pos hcond]
    · rw [ZMod.val_natCast, parseNatAux_eq_ofDigits]

/-- Witness for the amended C5 at the decimal numeral of `qBN` itself with a
leading `+`: the sign is stripped, the numeral encodes a value `≥ qBN`, and
the parse succeeds with the value reduced to `0`. -/
theorem decimal_to_fr_spec_amended_witness :
    ∃ e : Fr, decimal_to_fr ("+21888242871839275222246405745257275088548364400416034343698204186575808495617".toList) = some e ∧
      e.val = Nat.ofDigits 10
        ((((stripPlus ("+21888242871839275222246405745257275088548364400416034343698204186575808495617".toList)).filter
          fun ch => ch != '_').map fun ch => ch.toNat - 48).reverse) % qBN :=
  (decimal_to_fr_spec_amended
    ("+21888242871839275222246405745257275088548364400416034343698204186575808495617".toList)).2
    (by decide)

/-- C6: the base commitment is a deterministic pure function of its inputs:
equal inputs give an equal output, and the output is exactly `H2(x, r)`. -/
theorem compute_base_commitment_deterministic (x r x' r' : Fr)
    (hx : x = x') (hr : r = r') :
    compute_base_commitment x r = compute_base_commitment x' r' ∧
      compute_base_commitment x r = mimc2 x r := by
  subst hx; subst hr; exact ⟨rfl, rfl⟩

/-- Witness for C6 at the concrete inputs of the repository's own unit test
(`x = 22`, `r = 12345`). -/
theorem compute_base_commitment_deterministic_witness :
    compute_base_commitment (u64_to_fr 22) (u64_to_fr 12345) =
        compute_base_commitment (u64_to_fr 22) (u64_to_fr 12345) ∧
      compute_base_commitment (u64_to_fr 22) (u64_to_fr 12345) =
        mimc2 (u64_to_fr 22) (u64_to_fr 12345) :=
  compute_base_commitment_deterministic (u64_to_fr 22) (u64_to_fr 12345)
    (u64_to_fr 22) (u64_to_fr 12345) rfl rfl

theorem foldl_append_eq_join {α β : Type} (f : α → List β) :
    ∀ (l : List α) (init : List β),
      l.foldl (fun acc x => acc ++ f x) init = init ++ (l.map f).flatten := by
  intro l
  induction l with
  | nil => intro init; simp
  | cons a t ih => intro init; simp [ih, List.append_assoc]

/-- C7: for every credential id byte string and ordered commitment list,
`credential_message` is the SHA-256 digest of the concatenation of the id
bytes with the decimal encodings of the commitments taken in list order. -/
theorem credential_message_spec (sha : List Nat → List Nat) (cred_id : List Nat)
    (c_parts : List Fr) :
    credential_message sha cred_id c_parts =
      sha (cred_id ++ (c_parts.map fun c => (fr_to_decimal c).map Char.toNat).flatten) := by
  rw [credential_message, foldl_append_eq_join]

/-- C8: `bytes_to_fr` computes, for every byte string and every digest
function, the digest interpreted as a little-endian integer reduced modulo
`qBN`; being a pure function it is in particular deterministic, so equal
verifier ids always get equal domain tags. -/
theorem bytes_to_fr_spec (sha : List Nat → List Nat) (data : List Nat) :
    (bytes_to_fr sha data).val = leBytesToNat (sha data) % qBN := by
  rw [bytes_to_fr, from_le_bytes_mod_order, ZMod.val_natCast]

theorem buildPublic_total (nonce domain : Fr) :
    ∀ l : List (List Char × AttributeData),
      (∀ p ∈ l, (decimal_to_fr p.2.c).isSome) →
      buildPublic nonce domain l = some (l.map fun p =>
        (p.1, SessionPublic.mk (fr_to_decimal (compute_session_commitment
          ((decimal_to_fr p.2.c).getD 0) nonce domain)))) := by
  intro l
  induction l with
  | nil => intro _; rfl
  | cons p rest ih =>
    intro h
    obtain ⟨cf, hcf⟩ := Option.isSome_iff_exists.mp (h p (List.mem_cons_self p rest))
    have hrest := ih fun q hq => h q (List.mem_cons_of_mem p hq)
    simp [buildPublic, hcf, hrest]

/-- C9: on a credential whose stored commitment strings all parse, the
session workflow succeeds and returns a session whose public map sends every
attribute name of the credential, and nothing else, to the session
commitment `H3(parse(C), nonce, domain)` computed with the single nonce and
the single verifier domain tag of the invocation. -/
theorem cmd_session_public_spec (sha : List Nat → List Nat) (cred : Credential)
    (verifier_id : List Char) (nonce_bytes : List Nat) (min_age min_income : Nat)
    (hparse : ∀ p ∈ cred.attributes, (decimal_to_fr p.2.c).isSome) :
    ∃ s : Session,
      cmd_session sha cred verifier_id nonce_bytes min_age min_income = some s ∧
      s.public = cred.attributes.map fun p =>
        (p.1, SessionPublic.mk (fr_to_decimal (compute_session_commitment
          ((decimal_to_fr p.2.c).getD 0)
          (random_fr nonce_bytes)
          (bytes_to_fr sha (verifier_id.map Char.toNat))))) := by
  have hb := buildPublic_total (random_fr nonce_bytes)
    (bytes_to_fr sha (verifier_id.map Char.toNat)) cred.attributes hparse
  refine ⟨{ verifier_id := verifier_id
            nonce := fr_to_decimal (random_fr nonce_bytes)
            thresholds := [(ageMinKey, min_age), (incomeMinKey, min_income)]
            public := cred.attributes.map fun p =>
              (p.1, SessionPublic.mk (fr_to_decimal (compute_session_commitment
                ((decimal_to_fr p.2.c).getD 0)
                (random_fr nonce_bytes)
                (bytes_to_fr sha (verifier_id.map Char.toNat))))) }, ?_, rfl⟩
  simp only [cmd_session]
  rw [hb]
  rfl

/-- Witness for C9 on the concrete credential `exCred` (one attribute with
commitment string `"5"`), verifier `"B"`, nonce bytes `[1]`. -/
theorem cmd_session_public_spec_witness :
    ∃ s : Session,
      cmd_session exSha exCred ("B".toList) [1] 18 500000 = some s ∧
      s.public = exCred.attributes.map fun p =>
        (p.1, SessionPublic.mk (fr_to_decimal (compute_session_commitment
          ((decimal_to_fr p.2.c).getD 0)
          (random_fr [1])
          (bytes_to_fr exSha (("B".toList).map Char.toNat))))) :=
  cmd_session_public_spec exSha exCred ("B".toList) [1] 18 500000 (by decide)

/-- C10: whenever the session workflow returns a session, its thresholds map
holds exactly the two keys `"age_min"` and `"income_min"`, bound to the
`min_age` and `min_income` inputs, whatever attributes the credential has. -/
theorem cmd_session_thresholds (sha : List Nat → List Nat) (cred : Credential)
    (verifier_id : List Char) (nonce_bytes : List Nat) (min_age min_income : Nat)
    (s : Session)
    (h : cmd_session sha cred verifier_id nonce_bytes min_age min_income = some s) :
    s.thresholds = [(ageMinKey, min_age), (incomeMinKey, min_income)] := by
  rw [cmd_session] at h
  cases hb : buildPublic (random_fr nonce_bytes)
      (bytes_to_fr sha (verifier_id.map Char.toNat)) cred.attributes with
  | none => rw [hb] at h; simp at h
  | some pub =>
    rw [hb] at h
    simp only [Option.map_some', Option.some.injEq] at h
    rw [← h]

/-- Witness for C10 on the concrete invocation that produces `exSession`. -/
theorem cmd_session_thresholds_witness :
    exSession.thresholds = [(ageMinKey, 18), (incomeMinKey, 500000)] :=
  cmd_session_thresholds exSha exCred ("B".toList) [1] 18 500000 exSession (by decide)

theorem powModAux_modEq :
    ∀ (fuel a k n : Nat), k < 2 ^ fuel → powModAux fuel a k n ≡ a ^ k [MOD n] := by
  intro fuel
  induction fuel with
  | zero =>
    intro a k n hk
    interval_cases k
    simpa [powModAux] using Nat.mod_modEq 1 n
  | succ fuel ih =>
    intro a k n hk
    by_cases h0 : k = 0
    · subst h0
      simpa [powModAux] using Nat.mod_modEq 1 n
    · have hk2 : k / 2 < 2 ^ fuel := by
        rw [Nat.div_lt_iff_lt_mul (by norm_num)]
        calc k < 2 ^ (fuel + 1) := hk
          _ = 2 ^ fuel * 2 := pow_succ 2 fuel
      have hrec := ih a (k / 2) n hk2
      have hsplit : a ^ k = a ^ (k / 2) * a ^ (k / 2) * a ^ (k % 2) := by
        rw [← pow_add, ← pow_add]
        congr 1
        omega
      rw [powModAux, if_neg h0]
      by_cases he : k % 2 = 0
      · rw [if_pos he, hsplit, he, pow_zero, mul_one]
        exact (Nat.mod_modEq _ n).trans (hrec.mul hrec)
      · have h1 : k % 2 = 1 := (Nat.mod_two_eq_zero_or_one k).resolve_left he
        rw [if_neg he, hsplit, h1, pow_one]
        exact (Nat.mod_modEq _ n).trans
          (((Nat.mod_modEq _ n).trans (hrec.mul hrec)).mul (Nat.ModEq.refl a))

theorem powMod_modEq (a k n : Nat) (hk : k < 2 ^ 300) : powMod a k n ≡ a ^ k [MOD n] :=
  powModAux_modEq 300 a k n hk

theorem pow_eq_one_of_powMod {p a k : Nat} (hk : k < 2 ^ 300)
    (h : powMod a k p % p = 1 % p) : ((a : Nat) : ZMod p) ^ k = 1 := by
  have hmod : a ^ k ≡ 1 [MOD p] := (powMod_modEq a k p hk).symm.trans h
  calc ((a : Nat) : ZMod p) ^ k = ((a ^ k : Nat) : ZMod p) := by push_cast; ring
    _ = ((1 : Nat) : ZMod p) := (ZMod.natCast_eq_natCast_iff _ _ _).mpr hmod
    _ = 1 := Nat.cast_one

theorem pow_ne_one_of_powMod {p a k : Nat} (hk : k < 2 ^ 300)
    (h : ¬(powMod a k p % p = 1 % p)) : ((a : Nat) : ZMod p) ^ k ≠ 1 := by
  intro hcontra
  apply h
  have hcast : ((a ^ k : Nat) : ZMod p) = ((1 : Nat) : ZMod p) := by
    push_cast
    exact hcontra
  have hmod : a ^ k ≡ 1 [MOD p] := (ZMod.natCast_eq_natCast_iff _ _ _).mp hcast
  exact (powMod_modEq a k p hk).trans hmod

theorem prime_eq_of_dvd_prime_pow {f q e : Nat} (hf : f.Prime) (hq : q.Prime)
    (h : f ∣ q ^ e) : f = q :=
  (Nat.prime_dvd_prime_iff_eq hf hq).mp (hf.dvd_of_dvd_pow h)
theorem prime_2 : Nat.Prime 2 := by norm_num

theorem prime_3 : Nat.Prime 3 := by norm_num

theorem prime_5 : Nat.Prime 5 := by norm_num

theorem prime_7 : Nat.Prime 7 := by norm_num

theorem prime_13 : Nat.Prime 13 := by norm_num

theorem prime_29 : Nat.Prime 29 := by norm_num

theorem prime_83 : Nat.Prime 83 := by norm_num

theorem prime_107 : Nat.Prime 107 := by norm_num

theorem prime_229 : Nat.Prime 229 := by norm_num

theorem prime_379 : Nat.Prime 379 := by norm_num

theorem prime_661 : Nat.Prime 661 := by norm_num

theorem prime_823 : Nat.Prime 823 := by norm_num

theorem prime_853 : Nat.Prime 853 := by norm_num

theorem prime_983 : Nat.Prime 983 := by norm_num

theorem prime_1637 : Nat.Prime 1637 := by norm_num

theorem prime_11003 : Nat.Prime 11003 := by norm_num

theorem prime_93001 : Nat.Prime 93001 := by norm_num

theorem prime_237073 : Nat.Prime 237073 := by norm_num

theorem prime_11 : Nat.Prime 11 := by norm_num

theorem prime_19 : Nat.Prime 19 := by norm_num

theorem prime_3691 : Nat.Prime 3691 := by norm_num

theorem prime_4999 : Nat.Prime 4999 := by norm_num

theorem prime_41927 : Nat.Prime 41927 := by norm_num

set_option maxRecDepth 40000 in
/-- Lucas primality certificate for `1593227` with witness `2`. -/
theorem prime_1593227 : Nat.Prime 1593227 := by
  have ha : ((2 : Nat) : ZMod 1593227) ^ (1593227 - 1) = 1 :=
    pow_eq_one_of_powMod (by norm_num) (by decide)
  refine lucas_primality 1593227 ((2 : Nat) : ZMod 1593227) ha ?_
  intro f hf hdvd
  have hfact : 1593227 - 1 = 2 ^ 1 * (19 ^ 1 * (41927 ^ 1)) := by norm_num
  rw [hfact] at hdvd
  rcases (Nat.Prime.dvd_mul hf).mp hdvd with hcase | hdvd
  · have hef : f = 2 := prime_eq_of_dvd_prime_pow hf prime_2 hcase
    subst hef
    exact pow_ne_one_of_powMod (by norm_num) (by decide)
  rcases (Nat.Prime.dvd_mul hf).mp hdvd with hcase | hdvd
  · have hef : f = 19 := prime_eq_of_dvd_prime_pow hf prime_19 hcase
    subst hef
    exact pow_ne_one_of_powMod (by norm_num) (by decide)
  have hef : f = 41927 := prime_eq_of_dvd_prime_pow hf prime_41927 hdvd
  subst hef
  exact pow_ne_one_of_powMod (by norm_num) (by decide)

set_option maxRecDepth 40000 in
/-- Lucas primality certificate for `405928799` with witness `22`. -/
theorem prime_405928799 : Nat.Prime 405928799 := by
  have ha : ((22 : Nat) : ZMod 405928799) ^ (405928799 - 1) = 1 :=
    pow_eq_one_of_powMod (by norm_num) (by decide)
  refine lucas_primality 405928799 ((22 : Nat) : ZMod 405928799) ha ?_
  intro f hf hdvd
  have hfact : 405928799 - 1 = 2 ^ 1 * (11 ^ 1 * (3691 ^ 1 * (4999 ^ 1))) := by norm_num
  rw [hfact] at hdvd
  rcases (Nat.Prime.dvd_mul hf).mp hdvd with hcase | hdvd
  · have hef : f = 2 := prime_eq_of_dvd_prime_pow hf prime_2 hcase
    subst hef
    exact pow_ne_one_of_powMod (by norm_num) (by decide)
  rcases (Nat.Prime.dvd_mul hf).mp hdvd with hcase | hdvd
  · have hef : f = 11 := prime_eq_of_dvd_prime_pow hf prime_11 hcase
    subst hef
    exact pow_ne_one_of_powMod (by norm_num) (by decide)
  rcases (Nat.Prime.dvd_mul hf).mp hdvd with hcase | hdvd
  · have hef : f = 3691 := prime_eq_of_dvd_prime_pow hf prime_3691 hcase
    subst hef
    exact pow_ne_one_of_powMod (by norm_num) (by decide)
  have hef : f = 4999 := prime_eq_of_dvd_prime_pow hf prime_4999 hdvd
  subst hef
  exact pow_ne_one_of_powMod (by norm_num) (by decide)

set_option maxRecDepth 40000 in
/-- Lucas primality certificate for `639533339` with witness `2`. -/
theorem prime_639533339 : Nat.Prime 639533339 := by
  have ha : ((2 : Nat) : ZMod 639533339) ^ (639533339 - 1) = 1 :=
    pow_eq_one_of_powMod (by norm_num) (by decide)
  refine lucas_primality 639533339 ((2 : Nat) : ZMod 639533339) ha ?_
  intro f hf hdvd
  have hfact : 639533339 - 1 = 2 ^ 1 * (229 ^ 1 * (853 ^ 1 * (1637 ^ 1))) := by norm_num
  rw [hfact] at hdvd
  rcases (Nat.Prime.dvd_mul hf).mp hdvd with hcase | hdvd
  · have hef : f = 2 := prime_eq_of_dvd_prime_pow hf prime_2 hcase
    subst hef
    exact pow_ne_one_of_powMod (by norm_num) (by decide)
  rcases (Nat.Prime.dvd_mul hf).mp hdvd with hcase | hdvd
  · have hef : f = 229 := prime_eq_of_dvd_prime_pow hf prime_229 hcase
    subst hef
    exact pow_ne_one_of_powMod (by norm_num) (by decide)
  rcases (Nat.Prime.dvd_mul hf).mp hdvd with hcase | hdvd
  · have hef : f = 853 := prime_eq_of_dvd_prime_pow hf prime_853 hcase
    subst hef
    exact pow_ne_one_of_powMod (by norm_num) (by decide)
  have hef : f = 1637 := prime_eq_of_dvd_prime_pow hf prime_1637 hdvd
  subst hef
  exact pow_ne_one_of_powMod (by norm_num) (by decide)

set_option maxRecDepth 40000 in
/-- Lucas primality certificate for `12048837557` with witness `2`. -/
theorem prime_12048837557 : Nat.Prime 12048837557 := by
  have ha : ((2 : Nat) : ZMod 12048837557) ^ (12048837557 - 1) = 1 :=
    pow_eq_one_of_powMod (by norm_num) (by decide)
  refine lucas_primality 12048837557 ((2 : Nat) : ZMod 12048837557) ha ?_
  intro f hf hdvd
  have hfact : 12048837557 - 1 = 2 ^ 2 * (7 ^ 2 * (661 ^ 1 * (93001 ^ 1))) := by norm_num
  rw [hfact] at hdvd
  rcases (Nat.Prime.dvd_mul hf).mp hdvd with hcase | hdvd
  · have hef : f = 2 := prime_eq_of_dvd_prime_pow hf prime_2 hcase
    subst hef
    exact pow_ne_one_of_powMod (by norm_num) (by decide)
  rcases (Nat.Prime.dvd_mul hf).mp hdvd with hcase | hdvd
  · have hef : f = 7 := prime_eq_of_dvd_prime_pow hf prime_7 hcase
    subst hef
    exact pow_ne_one_of_powMod (by norm_num) (by decide)
  rcases (Nat.Prime.dvd_mul hf).mp hdvd with hcase | hdvd
  · have hef : f = 661 := prime_eq_of_dvd_prime_pow hf prime_661 hcase
    subst hef
    exact pow_ne_one_of_powMod (by norm_num) (by decide)
  have hef : f = 93001 := prime_eq_of_dvd_prime_pow hf prime_93001 hdvd
  subst hef
  exact pow_ne_one_of_powMod (by norm_num) (by decide)

set_option maxRecDepth 40000 in
/-- Lucas primality certificate for `5156902474397` with witness `2`. -/
theorem prime_5156902474397 : Nat.Prime 5156902474397 := by
  have ha : ((2 : Nat) : ZMod 5156902474397) ^ (5156902474397 - 1) = 1 :=
    pow_eq_one_of_powMod (by norm_num) (by decide)
  refine lucas_primality 5156902474397 ((2 : Nat) : ZMod 5156902474397) ha ?_
  intro f hf hdvd
  have hfact : 5156902474397 - 1 = 2 ^ 2 * (107 ^ 1 * (12048837557 ^ 1)) := by norm_num
  rw [hfact] at hdvd
  rcases (Nat.Prime.dvd_mul hf).mp hdvd with hcase | hdvd
  · have hef : f = 2 := prime_eq_of_dvd_prime_pow hf prime_2 hcase
    subst hef
    exact pow_ne_one_of_powMod (by norm_num) (by decide)
  rcases (Nat.Prime.dvd_mul hf).mp hdvd with hcase | hdvd
  · have hef : f = 107 := prime_eq_of_dvd_prime_pow hf prime_107 hcase
    subst hef
    exact pow_ne_one_of_powMod (by norm_num) (by decide)
  have hef : f = 12048837557 := prime_eq_of_dvd_prime_pow hf prime_12048837557 hdvd
  subst hef
  exact pow_ne_one_of_powMod (by norm_num) (by decide)

set_option maxRecDepth 40000 in
/-- Lucas primality certificate for `1670836401704629` with witness `2`. -/
theorem prime_1670836401704629 : Nat.Prime 1670836401704629 := by
  have ha : ((2 : Nat) : ZMod 1670836401704629) ^ (1670836401704629 - 1) = 1 :=
    pow_eq_one_of_powMod (by norm_num) (by decide)
  refine lucas_primality 1670836401704629 ((2 : Nat) : ZMod 1670836401704629) ha ?_
  intro f hf hdvd
  have hfact : 1670836401704629 - 1 = 2 ^ 2 * (3 ^ 4 * (5156902474397 ^ 1)) := by norm_num
  rw [hfact] at hdvd
  rcases (Nat.Prime.dvd_mul hf).mp hdvd with hcase | hdvd
  · have hef : f = 2 := prime_eq_of_dvd_prime_pow hf prime_2 hcase
    subst hef
    exact pow_ne_one_of_powMod (by norm_num) (by decide)
  rcases (Nat.Prime.dvd_mul hf).mp hdvd with hcase | hdvd
  · have hef : f = 3 := prime_eq_of_dvd_prime_pow hf prime_3 hcase
    subst hef
    exact pow_ne_one_of_powMod (by norm_num) (by decide)
  have hef : f = 5156902474397 := prime_eq_of_dvd_prime_pow hf prime_5156902474397 hdvd
  subst hef
  exact pow_ne_one_of_powMod (by norm_num) (by decide)

set_option maxRecDepth 40000 in
/-- Lucas primality certificate for `65865678001877903` with witness `5`. -/
theorem prime_65865678001877903 : Nat.Prime 65865678001877903 := by
  have ha : ((5 : Nat) : ZMod 65865678001877903) ^ (65865678001877903 - 1) = 1 :=
    pow_eq_one_of_powMod (by norm_num) (by decide)
  refine lucas_primality 65865678001877903 ((5 : Nat) : ZMod 65865678001877903) ha ?_
  intro f hf hdvd
  have hfact : 65865678001877903 - 1 = 2 ^ 1 * (83 ^ 1 * (379 ^ 1 * (1637 ^ 1 * (639533339 ^ 1)))) := by norm_num
  rw [hfact] at hdvd
  rcases (Nat.Prime.dvd_mul hf).mp hdvd with hcase | hdvd
  · have hef : f = 2 := prime_eq_of_dvd_prime_pow hf prime_2 hcase
    subst hef
    exact pow_ne_one_of_powMod (by norm_num) (by decide)
  rcases (Nat.Prime.dvd_mul hf).mp hdvd with hcase | hdvd
  · have hef : f = 83 := prime_eq_of_dvd_prime_pow hf prime_83 hcase
    subst hef
    exact pow_ne_one_of_powMod (by norm_num) (by decide)
  rcases (Nat.Prime.dvd_mul hf).mp hdvd with hcase | hdvd
  · have hef : f = 379 := prime_eq_of_dvd_prime_pow hf prime_379 hcase
    subst hef
    exact pow_ne_one_of_powMod (by norm_num) (by decide)
  rcases (Nat.Prime.dvd_mul hf).mp hdvd with hcase | hdvd
  · have hef : f = 1637 := prime_eq_of_dvd_prime_pow hf prime_1637 hcase
    subst hef
    exact pow_ne_one_of_powMod (by norm_num) (by decide)
  have hef : f = 639533339 := prime_eq_of_dvd_prime_pow hf prime_639533339 hdvd
  subst hef
  exact pow_ne_one_of_powMod (by norm_num) (by decide)

set_option maxRecDepth 40000 in
/-- Lucas primality certificate for `13818364434197438864469338081` with witness `3`. -/
theorem prime_13818364434197438864469338081 : Nat.Prime 13818364434197438864469338081 := by
  have ha : ((3 : Nat) : ZMod 13818364434197438864469338081) ^ (13818364434197438864469338081 - 1) = 1 :=
    pow_eq_one_of_powMod (by norm_num) (by decide)
  refine lucas_primality 13818364434197438864469338081 ((3 : Nat) : ZMod 13818364434197438864469338081) ha ?_
  intro f hf hdvd
  have hfact : 13818364434197438864469338081 - 1 = 2 ^ 5 * (5 ^ 1 * (823 ^ 1 * (1593227 ^ 1 * (65865678001877903 ^ 1)))) := by norm_num
  rw [hfact] at hdvd
  rcases (Nat.Prime.dvd_mul hf).mp hdvd with hcase | hdvd
  · have hef : f = 2 := prime_eq_of_dvd_prime_pow hf prime_2 hcase
    subst hef
    exact pow_ne_one_of_powMod (by norm_num) (by decide)
  rcases (Nat.Prime.dvd_mul hf).mp hdvd with hcase | hdvd
  · have hef : f = 5 := prime_eq_of_dvd_prime_pow hf prime_5 hcase
    subst hef
    exact pow_ne_one_of_powMod (by norm_num) (by decide)
  rcases (Nat.Prime.dvd_mul hf).mp hdvd with hcase | hdvd
  · have hef : f = 823 := prime_eq_of_dvd_prime_pow hf prime_823 hcase
    subst hef
    exact pow_ne_one_of_powMod (by norm_num) (by decide)
  rcases (Nat.Prime.dvd_mul hf).mp hdvd with hcase | hdvd
  · have hef : f = 1593227 := prime_eq_of_dvd_prime_pow hf prime_1593227 hcase
    subst hef
    exact pow_ne_one_of_powMod (by norm_num) (by decide)
  have hef : f = 65865678001877903 := prime_eq_of_dvd_prime_pow hf prime_65865678001877903 hdvd
  subst hef
  exact pow_ne_one_of_powMod (by norm_num) (by decide)

set_option maxRecDepth 40000 in
/-- Lucas primality certificate for `21888242871839275222246405745257275088548364400416034343698204186575808495617` with witness `5`. -/
theorem prime_21888242871839275222246405745257275088548364400416034343698204186575808495617 : Nat.Prime 21888242871839275222246405745257275088548364400416034343698204186575808495617 := by
  have ha : ((5 : Nat) : ZMod 21888242871839275222246405745257275088548364400416034343698204186575808495617) ^ (21888242871839275222246405745257275088548364400416034343698204186575808495617 - 1) = 1 :=
    pow_eq_one_of_powMod (by norm_num) (by decide)
  refine lucas_primality 21888242871839275222246405745257275088548364400416034343698204186575808495617 ((5 : Nat) : ZMod 21888242871839275222246405745257275088548364400416034343698204186575808495617) ha ?_
  intro f hf hdvd
  have hfact : 21888242871839275222246405745257275088548364400416034343698204186575808495617 - 1 = 2 ^ 28 * (3 ^ 2 * (13 ^ 1 * (29 ^ 1 * (983 ^ 1 * (11003 ^ 1 * (237073 ^ 1 * (405928799 ^ 1 * (1670836401704629 ^ 1 * (13818364434197438864469338081 ^ 1))))))))) := by norm_num
  rw [hfact] at hdvd
  rcases (Nat.Prime.dvd_mul hf).mp hdvd with hcase | hdvd
  · have hef : f = 2 := prime_eq_of_dvd_prime_pow hf prime_2 hcase
    subst hef
    exact pow_ne_one_of_powMod (by norm_num) (by decide)
  rcases (Nat.Prime.dvd_mul hf).mp hdvd with hcase | hdvd
  · have hef : f = 3 := prime_eq_of_dvd_prime_pow hf prime_3 hcase
    subst hef
    exact pow_ne_one_of_powMod (by norm_num) (by decide)
  rcases (Nat.Prime.dvd_mul hf).mp hdvd with hcase | hdvd
  · have hef : f = 13 := prime_eq_of_dvd_prime_pow hf prime_13 hcase
    subst hef
    exact pow_ne_one_of_powMod (by norm_num) (by decide)
  rcases (Nat.Prime.dvd_mul hf).mp hdvd with hcase | hdvd
  · have hef : f = 29 := prime_eq_of_dvd_prime_pow hf prime_29 hcase
    subst hef
    exact pow_ne_one_of_powMod (by norm_num) (by decide)
  rcases (Nat.Prime.dvd_mul hf).mp hdvd with hcase | hdvd
  · have hef : f = 983 := prime_eq_of_dvd_prime_pow hf prime_983 hcase
    subst hef
    exact pow_ne_one_of_powMod (by norm_num) (by decide)
  rcases (Nat.Prime.dvd_mul hf).mp hdvd with hcase | hdvd
  · have hef : f = 11003 := prime_eq_of_dvd_prime_pow hf prime_11003 hcase
    subst hef
    exact pow_ne_one_of_powMod (by norm_num) (by decide)
  rcases (Nat.Prime.dvd_mul hf).mp hdvd with hcase | hdvd
  · have hef : f = 237073 := prime_eq_of_dvd_prime_pow hf prime_237073 hcase
    subst hef
    exact pow_ne_one_of_powMod (by norm_num) (by decide)
  rcases (Nat.Prime.dvd_mul hf).mp hdvd with hcase | hdvd
  · have hef : f = 405928799 := prime_eq_of_dvd_prime_pow hf prime_405928799 hcase
    subst hef
    exact pow_ne_one_of_powMod (by norm_num) (by decide)
  rcases (Nat.Prime.dvd_mul hf).mp hdvd with hcase | hdvd
  · have hef : f = 1670836401704629 := prime_eq_of_dvd_prime_pow hf prime_1670836401704629 hcase
    subst hef
    exact pow_ne_one_of_powMod (by norm_num) (by decide)
  have hef : f = 13818364434197438864469338081 := prime_eq_of_dvd_prime_pow hf prime_13818364434197438864469338081 hdvd
  subst hef
  exact pow_ne_one_of_powMod (by norm_num) (by decide)

/-- Primality of the BN254 scalar field order, by the chain of Lucas
certificates above. -/
theorem qBN_prime : Nat.Prime qBN :=
  prime_21888242871839275222246405745257275088548364400416034343698204186575808495617

/-- C3: session unlinkability, rendered deterministically.  For every fixed
base commitment `c`, verifier domain tag `d` and nonce `n1`, at most `48` of
the `qBN` field elements `n2 ≠ n1` produce a colliding session commitment
`H3(c, n2, d) = H3(c, n1, d)`: the collision locus is contained in the root
set of a nonzero degree-49 polynomial.  A uniformly drawn nonce pair
therefore collides with probability at most `49 / qBN < 2 ^ (-248)`, so over
10000 random nonce pairs the expected number of collisions is zero for every
practical purpose. -/
theorem session_unlinkability (c d n1 : Fr) :
    (Finset.univ.filter fun n2 : Fr =>
        n2 ≠ n1 ∧ compute_session_commitment c n2 d =
          compute_session_commitment c n1 d).card ≤ 48 := by
  haveI : Fact (Nat.Prime qBN) := ⟨qBN_prime⟩
  set h : Fr := mimc_round c 0 with hh
  set V : Polynomial Fr := (Polynomial.X + Polynomial.C h) ^ 7 + Polynomial.C h with hV
  set U : Polynomial Fr := (Polynomial.X + Polynomial.C d) ^ 7 + Polynomial.X with hU
  set P : Polynomial Fr := U.comp V with hP
  have hevalV : ∀ n : Fr, V.eval n = mimc_round h n := by
    intro n
    simp [hV, mimc_round]
    ring
  have hevalU : ∀ y : Fr, U.eval y = mimc_round y d := by
    intro y
    simp [hU, mimc_round]
  have hevalP : ∀ n : Fr, P.eval n = compute_session_commitment c n d := by
    intro n
    rw [hP, Polynomial.eval_comp, hevalV, hevalU]
    simp [compute_session_commitment, mimc3, mimc_round, hh]
  have hmV : V.Monic := by
    apply Polynomial.Monic.add_of_left ((Polynomial.monic_X_add_C h).pow 7)
    rw [Polynomial.degree_pow, Polynomial.degree_X_add_C]
    exact lt_of_le_of_lt Polynomial.degree_C_le (by norm_num)
  have hmU : U.Monic := by
    apply Polynomial.Monic.add_of_left ((Polynomial.monic_X_add_C d).pow 7)
    rw [Polynomial.degree_pow, Polynomial.degree_X_add_C, Polynomial.degree_X]
    norm_num
  have hdV : V.natDegree = 7 := by
    rw [hV, Polynomial.natDegree_add_C,
      Polynomial.Monic.natDegree_pow (Polynomial.monic_X_add_C h),
      Polynomial.natDegree_X_add_C]
  have hdU : U.natDegree = 7 := by
    have h7 : ((Polynomial.X + Polynomial.C d) ^ 7 : Polynomial Fr).natDegree = 7 := by
      rw [Polynomial.Monic.natDegree_pow (Polynomial.monic_X_add_C d),
        Polynomial.natDegree_X_add_C]
    rw [hU, Polynomial.natDegree_add_eq_left_of_natDegree_lt
      (by rw [h7, Polynomial.natDegree_X]; norm_num), h7]
  have hdP : P.natDegree = 49 := by
    rw [hP, Polynomial.natDegree_comp, hdU, hdV]
  set W : Polynomial Fr := P - Polynomial.C (P.eval n1) with hW
  have hWdeg : W.natDegree = 49 := by rw [hW, Polynomial.natDegree_sub_C, hdP]
  have hWne : W ≠ 0 := by
    intro hzero
    rw [hzero, Polynomial.natDegree_zero] at hWdeg
    exact absurd hWdeg (by norm_num)
  have hsub : (Finset.univ.filter fun n2 : Fr =>
      n2 ≠ n1 ∧ compute_session_commitment c n2 d =
        compute_session_commitment c n1 d) ⊆ W.roots.toFinset.erase n1 := by
    intro n2 hn2
    rw [Finset.mem_filter] at hn2
    obtain ⟨-, hne, heq⟩ := hn2
    rw [Finset.mem_erase]
    refine ⟨hne, ?_⟩
    rw [Multiset.mem_toFinset, Polynomial.mem_roots hWne]
    show W.eval n2 = 0
    rw [hW, Polynomial.eval_sub, Polynomial.eval_C, hevalP n2, hevalP n1, heq,
      sub_self]
  have hn1root : n1 ∈ W.roots.toFinset := by
    rw [Multiset.mem_toFinset, Polynomial.mem_roots hWne]
    show W.eval n1 = 0
    rw [hW, Polynomial.eval_sub, Polynomial.eval_C, sub_self]
  have hcard : W.roots.toFinset.card ≤ 49 := by
    calc W.roots.toFinset.card ≤ Multiset.card W.roots := Multiset.toFinset_card_le _
      _ ≤ W.natDegree := Polynomial.card_roots' W
      _ = 49 := hWdeg
  calc (Finset.univ.filter fun n2 : Fr =>
      n2 ≠ n1 ∧ compute_session_commitment c n2 d =
        compute_session_commitment c n1 d).card
      ≤ (W.roots.toFinset.erase n1).card := Finset.card_le_card hsub
    _ = W.roots.toFinset.card - 1 := Finset.card_erase_of_mem hn1root
    _ ≤ 48 := by omega
